import Mathlib

/-!
Verification of the procfs parsing core (`pkg/sys/proc/proc.go`).

The Go code is shallowly embedded: file contents are passed in explicitly
as `Option Str` (`none` models a failed read), Go strings are `List Char`,
raw `cmdline` bytes are `List Nat`, and the three ways a Go function can
finish — returning a value, `glog.Fatal` process termination, and a runtime
index-out-of-range panic — are the three constructors of `ParseOutcome`.
-/

namespace proc

/-- Go strings are modelled as lists of characters (the procfs content the
package reads is ASCII text). -/
abbrev Str := List Char

/-- Outcome of running a piece of the Go code: a normal result, process
termination via `glog.Fatalf`, or a runtime panic (index out of range). -/
inductive ParseOutcome (α : Type) where
  | ok (v : α)
  | fatal
  | panic
deriving DecidableEq, Repr

/-- Sequencing of Go statements: a fatal exit or panic short-circuits. -/
def ParseOutcome.bind {α β : Type} : ParseOutcome α → (α → ParseOutcome β) → ParseOutcome β
  | .ok v, f => f v
  | .fatal, _ => .fatal
  | .panic, _ => .panic

/-- Turn the result of a Go `strconv` call followed by
`if err != nil { glog.Fatalf(...) }` into an outcome. -/
def outcomeOf {α : Type} : Option α → ParseOutcome α
  | some v => .ok v
  | none => .fatal

/- ### Go `strings` primitives -/

/-- Core of splitting on an element predicate: returns the first segment and
the list of remaining segments. -/
def splitOnPCore {α : Type} (p : α → Bool) : List α → List α × List (List α)
  | [] => ([], [])
  | c :: rest =>
    let r := splitOnPCore p rest
    if p c then ([], r.1 :: r.2) else (c :: r.1, r.2)

/-- Split a list at every element satisfying `p`, keeping empty segments.
The result is always nonempty. -/
def splitOnP {α : Type} (p : α → Bool) (s : List α) : List (List α) :=
  (splitOnPCore p s).1 :: (splitOnPCore p s).2

/-- Model of Go `strings.Split(s, sep)` for a one-character separator. -/
def splitOnChar (sep : Char) (s : Str) : List Str :=
  splitOnP (fun c => c = sep) s

/-- The whitespace class used by Go `strings.Fields` / `strings.TrimSpace`
(`unicode.IsSpace`), restricted to the ASCII range that procfs content can
contain. -/
def goIsSpace (c : Char) : Bool :=
  c = ' ' || c = '\t' || c = '\n' || c = '\x0b' || c = '\x0c' || c = '\r'

/-- Model of Go `strings.Fields`: the maximal runs of non-whitespace
characters, in order. -/
def fields (s : Str) : List Str :=
  (splitOnP goIsSpace s).filter (fun t => t ≠ [])

/-- Model of Go `strings.HasPrefix s pre`. -/
def hasPrefix : Str → Str → Bool
  | _, [] => true
  | [], _ :: _ => false
  | c :: s, p :: ps => c = p && hasPrefix s ps

/-- Model of Go `strings.Trim(s, "()")`: remove all leading and all trailing
characters belonging to the cutset `{'(', ')'}`. -/
def trimParens (s : Str) : Str :=
  let l := s.dropWhile (fun c => c = '(' || c = ')')
  (l.reverse.dropWhile (fun c => c = '(' || c = ')')).reverse

/-- Model of Go `strings.TrimSpace`. -/
def trimSpace (s : Str) : Str :=
  let l := s.dropWhile goIsSpace
  (l.reverse.dropWhile goIsSpace).reverse

/-- `dropCR` from `bufio.ScanLines`: strip one trailing carriage return. -/
def dropCR (s : Str) : Str :=
  match s.getLast? with
  | some '\r' => s.dropLast
  | _ => s

/-- Model of reading a file line by line with `bufio.Scanner` using the
default `ScanLines` split function: tokens are separated by `'\n'`, a final
newline does not produce a trailing empty token, and each token has one
trailing `'\r'` removed. -/
def goLines (s : Str) : List Str :=
  let parts := splitOnChar '\n' s
  let parts := if parts.getLast? = some [] then parts.dropLast else parts
  parts.map dropCR

/- ### Go `strconv` primitives -/

/-- Digit value of a character, as in Go `strconv` (digits, then lower- and
upper-case letters). -/
def digitVal (c : Char) : Option Nat :=
  if '0' ≤ c ∧ c ≤ '9' then some (c.toNat - '0'.toNat)
  else if 'a' ≤ c ∧ c ≤ 'z' then some (c.toNat - 'a'.toNat + 10)
  else if 'A' ≤ c ∧ c ≤ 'Z' then some (c.toNat - 'A'.toNat + 10)
  else none

/-- Accumulate the value of a digit string in the given base; `none` on the
first character that is not a valid digit of the base. -/
def parseDigitsAux (base : Nat) : Nat → Str → Option Nat
  | acc, [] => some acc
  | acc, c :: cs =>
    match digitVal c with
    | some d => if d < base then parseDigitsAux base (acc * base + d) cs else none
    | none => none

/-- Value of a nonempty digit string in the given base. -/
def parseDigits (base : Nat) : Str → Option Nat
  | [] => none
  | cs => parseDigitsAux base 0 cs

/-- The base-detection core of Go `strconv.ParseUint` with `base = 0`:
a `0x`/`0X` prefix selects hexadecimal, a leading `0` selects octal, and
anything else is decimal.  (The Go version this repository builds with has
no `0b`/`0o` prefixes and no underscore digit separators.) -/
def goUintCore : Str → Option Nat
  | '0' :: 'x' :: rest => parseDigits 16 rest
  | '0' :: 'X' :: rest => parseDigits 16 rest
  | '0' :: rest => parseDigits 8 ('0' :: rest)
  | s => parseDigits 10 s

/-- Model of Go `strconv.ParseUint(s, 0, bitSize)`: no sign is accepted, the
base is detected from the prefix, and a value outside `[0, 2^bitSize)` is a
range error (Go reports `ErrRange`; the call sites treat any error alike). -/
def goParseUint (bitSize : Nat) (s : Str) : Option Nat :=
  match goUintCore s with
  | some v => if v < 2 ^ bitSize then some v else none
  | none => none

/-- Model of Go `strconv.ParseInt(s, 0, bitSize)`: an optional sign, then the
base-detected magnitude, then the signed range check (`-2^(bitSize-1)` to
`2^(bitSize-1) - 1`). -/
def goParseInt (bitSize : Nat) (s : Str) : Option Int :=
  match s with
  | '-' :: rest =>
    match goUintCore rest with
    | some v => if v ≤ 2 ^ (bitSize - 1) then some (-(v : Int)) else none
    | none => none
  | '+' :: rest =>
    match goUintCore rest with
    | some v => if v < 2 ^ (bitSize - 1) then some ((v : Int)) else none
    | none => none
  | _ =>
    match goUintCore s with
    | some v => if v < 2 ^ (bitSize - 1) then some ((v : Int)) else none
    | none => none

/-- Model of Go `strconv.Atoi`, i.e. `ParseInt(s, 10, 0)` on a 64-bit
platform: fixed base 10 (no prefix detection), optional sign, 64-bit signed
range check. -/
def goAtoi (s : Str) : Option Int :=
  match s with
  | '-' :: rest =>
    match parseDigits 10 rest with
    | some v => if v ≤ 2 ^ 63 then some (-(v : Int)) else none
    | none => none
  | '+' :: rest =>
    match parseDigits 10 rest with
    | some v => if v < 2 ^ 63 then some ((v : Int)) else none
    | none => none
  | _ =>
    match parseDigits 10 s with
    | some v => if v < 2 ^ 63 then some ((v : Int)) else none
    | none => none

/- ### Data model -/

/-- `Cgroup` describes the cgroup membership of a process (Go `int` is
64-bit, modelled as `Int`). -/
structure Cgroup where
  ID : Int
  Controllers : List Str
  Path : Str
deriving DecidableEq, Repr

/-- `ProcessStatus` represents process status available via
`/proc/[pid]/stat`: the whitespace-split fields of the status line.  (The
Go struct also carries lazily memoized copies of the derived fields; the
memoization is deterministic and does not change any result, so the model
keeps only the fields and derives values purely.) -/
structure ProcessStatus where
  statFields : List Str
deriving DecidableEq, Repr

/- ### Status-line accessors (`ProcessStatus` methods) -/

/-- `ProcessStatus.PID`: parse `statFields[0]` via `strconv.ParseInt(pid, 0, 32)`;
a parse error is `glog.Fatalf`, a missing field is an index panic. -/
def ProcessStatus.PID (ps : ProcessStatus) : ParseOutcome Int :=
  match ps.statFields.get? 0 with
  | none => .panic
  | some s => outcomeOf (goParseInt 32 s)

/-- `ProcessStatus.Command`: `strings.Trim(ps.statFields[1], "()")`. -/
def ProcessStatus.Command (ps : ProcessStatus) : ParseOutcome Str :=
  match ps.statFields.get? 1 with
  | none => .panic
  | some s => .ok (trimParens s)

/-- `ProcessStatus.ParentPID`: parse `statFields[3]` via
`strconv.ParseInt(ppid, 0, 32)`. -/
def ProcessStatus.ParentPID (ps : ProcessStatus) : ParseOutcome Int :=
  match ps.statFields.get? 3 with
  | none => .panic
  | some s => outcomeOf (goParseInt 32 s)

/-- `ProcessStatus.StartTime`: parse `statFields[22-1]` via
`strconv.ParseUint(st, 0, 64)`. -/
def ProcessStatus.StartTime (ps : ProcessStatus) : ParseOutcome Nat :=
  match ps.statFields.get? (22 - 1) with
  | none => .panic
  | some s => outcomeOf (goParseUint 64 s)

/-- `ProcessStatus.StartStack`: parse `statFields[28-1]` via
`strconv.ParseUint(ss, 0, 64)`. -/
def ProcessStatus.StartStack (ps : ProcessStatus) : ParseOutcome Nat :=
  match ps.statFields.get? (28 - 1) with
  | none => .panic
  | some s => outcomeOf (goParseUint 64 s)

/- ### The unique-identity hash input -/

/-- The 8 bytes written by Go `binary.Write(h, binary.LittleEndian, v)` for a
`uint64` value: little-endian order. -/
def uint64LE (v : Nat) : List Nat :=
  [v % 256, v / 2 ^ 8 % 256, v / 2 ^ 16 % 256, v / 2 ^ 24 % 256,
   v / 2 ^ 32 % 256, v / 2 ^ 40 % 256, v / 2 ^ 48 % 256, v / 2 ^ 56 % 256]

/-- The bytes written by Go `binary.Write(h, binary.LittleEndian, s)` when
`s` is a `string`: a Go `string` is not a fixed-size type, so
`encoding/binary.Write` returns the error `binary.Write: invalid type
string` before writing anything — zero bytes reach the writer.  The call
site in `ProcessStatus.UniqueID` discards the returned error. -/
def binaryWriteString (_s : Str) : List Nat := []

/-- One lower-case hexadecimal digit. -/
def hexDigit (n : Nat) : Char :=
  if n < 10 then Char.ofNat ('0'.toNat + n) else Char.ofNat ('a'.toNat + (n - 10))

/-- Go `fmt.Sprintf("%x", bytes)`: two lower-case hex digits per byte, no
separators. -/
def hexEncode (bs : List Nat) : Str :=
  (bs.map (fun b => [hexDigit (b / 16 % 16), hexDigit (b % 16)])).flatten

/-- The byte sequence fed to the SHA-256 hash by `ProcessStatus.UniqueID`:
the three `binary.Write` calls, in source order — the boot-id string (which
contributes nothing, see `binaryWriteString`), the start stack address, and
the start time. -/
def uniqueIDHashInput (bootID : Str) (startStack startTime : Nat) : List Nat :=
  binaryWriteString bootID ++ uint64LE startStack ++ uint64LE startTime

/-- `ProcessStatus.UniqueID`, parametrized by the digest function `H`
(the code uses SHA-256; every property proved here holds for an arbitrary
deterministic digest) and by the value returned by `BootID()`.  The Go
method calls `BootID()`, `ps.StartStack()` and `ps.StartTime()` in that
order, feeds them to the hash and hex-encodes the digest. -/
def ProcessStatus.UniqueID (H : List Nat → List Nat) (bootID : Str)
    (ps : ProcessStatus) : ParseOutcome Str :=
  ps.StartStack.bind fun ss =>
    ps.StartTime.bind fun st =>
      .ok (hexEncode (H (uniqueIDHashInput bootID ss st)))

/- ### Cgroup-file parsing -/

/-- Parse one line of `/proc/[pid]/cgroup` as the loop body of
`FileSystem.Cgroups` does: split on every `':'`, `strconv.Atoi` the first
part (`glog.Fatalf` on error), then build the record from parts 1 and 2
(an index panic when the line has fewer than three parts). -/
def parseCgroupLine (t : Str) : ParseOutcome Cgroup :=
  let parts := splitOnChar ':' t
  match goAtoi (parts.headD []) with
  | none => .fatal
  | some i =>
    match parts with
    | _ :: p1 :: p2 :: _ =>
      .ok { ID := i, Controllers := splitOnChar ',' p1, Path := p2 }
    | _ => .panic

/-- The scanner loop of `FileSystem.Cgroups`: parse each line in order,
accumulating records; a fatal exit or panic on a line stops the process. -/
def parseCgroupLines : List Str → ParseOutcome (List Cgroup)
  | [] => .ok []
  | t :: ts =>
    (parseCgroupLine t).bind fun c =>
      (parseCgroupLines ts).bind fun cs => .ok (c :: cs)

/- ### The `FileSystem` operations, as functions of the file content -/

/-- `FileSystem.Cgroups`, as a function of the content of
`<pid>/cgroup` (`none` = the read failed, and the Go function returns nil,
modelled as `.ok none`). -/
def Cgroups (content : Option Str) : ParseOutcome (Option (List Cgroup)) :=
  match content with
  | none => .ok none
  | some s => (parseCgroupLines (goLines s)).bind fun cs => .ok (some cs)

/-- The loop of `FileSystem.ContainerID` over the parsed cgroup records:
return `pathParts[2]` of the first record whose path has the literal prefix
`"/docker"` (an index panic when that split has fewer than three parts),
or the empty string when no record matches. -/
def containerIDOfCgroups : List Cgroup → ParseOutcome Str
  | [] => .ok []
  | c :: rest =>
    if hasPrefix c.Path ("/docker".toList) then
      match splitOnChar '/' c.Path with
      | _ :: _ :: p2 :: _ => .ok p2
      | _ => .panic
    else containerIDOfCgroups rest

/-- `FileSystem.ContainerID`, as a function of the content of
`<pid>/cgroup`: `fs.Cgroups(pid)` followed by the prefix scan (an
unreadable file yields nil cgroups, over which the loop returns `""`). -/
def ContainerID (content : Option Str) : ParseOutcome Str :=
  (Cgroups content).bind fun ocgs => containerIDOfCgroups (ocgs.getD [])

/-- `FileSystem.Stat`, as a function of the content of `<pid>/stat`:
`none` when the read failed, otherwise the `strings.Fields` of the line. -/
def Stat (content : Option Str) : Option ProcessStatus :=
  content.map fun s => ⟨fields s⟩

/-- `FileSystem.UniqueID`, as a function of the content of `<pid>/stat`
(parametrized like `ProcessStatus.UniqueID`): empty string when `Stat`
returns an absent result. -/
def UniqueID (H : List Nat → List Nat) (bootID : Str)
    (content : Option Str) : ParseOutcome Str :=
  match Stat content with
  | none => .ok []
  | some ps => ps.UniqueID H bootID

/-- `BootID`, as a function of the content of `sys/kernel/random/boot_id`:
the trimmed content, or a Go `panic(err)` when the read failed. -/
def BootID (content : Option Str) : ParseOutcome Str :=
  match content with
  | none => .panic
  | some d => .ok (trimSpace d)

/- ### Command-line reading -/

/-- Model of `bufio.Reader.ReadString(0)`: the bytes up to and including the
first NUL.  `none` models the error return when no NUL remains (including
at end of input); the loop in `CommandLine` breaks on it, discarding the
partial data. -/
def readToNul : List Nat → Option (List Nat × List Nat)
  | [] => none
  | b :: rest =>
    if b = 0 then some ([], rest)
    else (readToNul rest).map fun pr => (b :: pr.1, pr.2)

/-- The read loop of `FileSystem.CommandLine`: repeatedly `ReadString(0)`;
stop on a read error (no NUL left) or on an argument of length zero
(`len(s) > 1` in the Go code counts the NUL terminator); otherwise append
the argument without its NUL and continue. -/
def commandLineLoop (bs : List Nat) : List (List Nat) :=
  match h : readToNul bs with
  | none => []
  | some (seg, rest) =>
    if seg = [] then []
    else seg :: commandLineLoop rest
termination_by bs.length
decreasing_by
  have key : ∀ (l s r : List Nat), readToNul l = some (s, r) → r.length < l.length := by
    intro l
    induction l with
    | nil => intro s r hh; simp [readToNul] at hh
    | cons b tl ih =>
      intro s r hh
      rw [readToNul] at hh
      by_cases hb : b = 0
      · rw [if_pos hb] at hh
        injection hh with h1
        have h2 : r = tl := (congrArg Prod.snd h1).symm
        rw [h2, List.length_cons]
        omega
      · rw [if_neg hb] at hh
        cases htl : readToNul tl with
        | none => rw [htl] at hh; simp at hh
        | some pr =>
          rw [htl] at hh
          simp only [Option.map] at hh
          injection hh with h1
          have h2 : pr.2 = r := congrArg Prod.snd h1
          have h3 := ih pr.1 pr.2 (by rw [htl])
          rw [← h2, List.length_cons]
          omega
  exact key bs seg rest h

/-- `FileSystem.CommandLine`, as a function of the raw bytes of
`<pid>/cmdline` (`none` = the read failed, and the Go function returns
nil). -/
def CommandLine (content : Option (List Nat)) : Option (List (List Nat)) :=
  content.map commandLineLoop

/- ### Input-construction helpers used to state the round-trip theorems -/

/-- Join strings with a single separator character between them. -/
def joinSep (sep : Char) : List Str → Str
  | [] => []
  | [t] => t
  | t :: ts => t ++ sep :: joinSep sep ts

/-- The ingredients of one well-formed line of a cgroup membership file:
an id string, the controller names, and the cgroup path. -/
structure CgRec where
  idStr : Str
  ctrls : List Str
  path : Str

/-- `t` contains none of the separator characters of the cgroup file
format (colon, newline, carriage return). -/
def cgSepFree (t : Str) : Bool :=
  t.all fun c => !(c = ':' || c = '\n' || c = '\r')

/-- A well-formed cgroup line: the id parses under `strconv.Atoi` and no
component contains a character that the parser splits on. -/
def wfCgRec (r : CgRec) : Bool :=
  (goAtoi r.idStr).isSome && cgSepFree r.idStr &&
    !r.ctrls.isEmpty && r.ctrls.all (fun t => cgSepFree t && t.all (fun c => !(c = ','))) &&
    cgSepFree r.path

/-- Render one cgroup line `<id>:<controller,...>:<path>`. -/
def renderCgLine (r : CgRec) : Str :=
  r.idStr ++ ':' :: (joinSep ',' r.ctrls ++ ':' :: r.path)

/-- Render a whole cgroup membership file, one newline-terminated line per
record. -/
def renderCgFile (rs : List CgRec) : Str :=
  (rs.map fun r => renderCgLine r ++ ['\n']).flatten

/-- The record the parser is expected to produce for a rendered line. -/
def cgRecOf (r : CgRec) : Cgroup :=
  { ID := (goAtoi r.idStr).getD 0, Controllers := r.ctrls, Path := r.path }

/-- Modelled from the spec claim for `CommandLine` ("splits the raw bytes
on NUL bytes and drops a trailing empty segment"), stated in the spec's own
words for comparison against the code's `commandLineLoop`. -/
def commandLineSpecSplit (bs : List Nat) : List (List Nat) :=
  let segs := splitOnP (fun b => b = 0) bs
  if segs.getLast? = some [] then segs.dropLast else segs

/-- NUL-terminate each argument and concatenate, producing the byte content
of a well-formed `cmdline` file. -/
def encodeArgs (args : List (List Nat)) : List Nat :=
  (args.map fun a => a ++ [0]).flatten

/-- A concrete 28-field status line used to instantiate the field-position
theorem: pid 1234, command `(bash)`, ppid 1233, start time 999 (field 22),
start stack 7777 (field 28). -/
def statTokensW : List Str :=
  [("1234").toList, ("(bash)").toList, ("S").toList, ("1233").toList] ++
    List.replicate 17 ['0'] ++ [("999").toList] ++
    List.replicate 5 ['0'] ++ [("7777").toList]

/- ### Lemmas about the splitting primitives -/

theorem splitOnPCore_of_forall_not {α : Type} (p : α → Bool) :
    ∀ (s : List α), (∀ c ∈ s, p c = false) → splitOnPCore p s = (s, []) := by
  intro s
  induction s with
  | nil => intro _; rfl
  | cons c rest ih =>
    intro h
    have hc : p c = false := h c (by simp)
    have ihr := ih fun a ha => h a (by simp [ha])
    simp [splitOnPCore, ihr, hc]

theorem splitOnP_of_forall_not {α : Type} (p : α → Bool) (s : List α)
    (h : ∀ c ∈ s, p c = false) : splitOnP p s = [s] := by
  simp [splitOnP, splitOnPCore_of_forall_not p s h]

theorem splitOnPCore_append {α : Type} (p : α → Bool) (c : α) (ys : List α)
    (hc : p c = true) : ∀ (xs : List α), (∀ a ∈ xs, p a = false) →
    splitOnPCore p (xs ++ c :: ys) = (xs, splitOnP p ys) := by
  intro xs
  induction xs with
  | nil => intro _; simp [splitOnPCore, hc, splitOnP]
  | cons x xt ih =>
    intro hxs
    have hx : p x = false := hxs x (by simp)
    have ihr := ih fun a ha => hxs a (by simp [ha])
    simp [splitOnPCore, ihr, hx, splitOnP]

theorem splitOnP_append {α : Type} (p : α → Bool) (c : α) (ys : List α)
    (hc : p c = true) (xs : List α) (hxs : ∀ a ∈ xs, p a = false) :
    splitOnP p (xs ++ c :: ys) = xs :: splitOnP p ys := by
  simp [splitOnP, splitOnPCore_append p c ys hc xs hxs]

theorem splitOnChar_joinSep (sep : Char) :
    ∀ (ls : List Str), ls ≠ [] → (∀ t ∈ ls, ∀ c ∈ t, c ≠ sep) →
    splitOnChar sep (joinSep sep ls) = ls := by
  intro ls
  induction ls with
  | nil => intro hne _; exact absurd rfl hne
  | cons t ts ih =>
    intro _ h
    have hfree : ∀ a ∈ t, (decide (a = sep)) = false := by
      intro a ha
      simp [h t (by simp) a ha]
    cases ts with
    | nil =>
      show splitOnP (fun c => c = sep) t = [t]
      exact splitOnP_of_forall_not _ t hfree
    | cons t2 ts2 =>
      show splitOnP (fun c => c = sep) (t ++ sep :: joinSep sep (t2 :: ts2)) = _
      rw [splitOnP_append _ sep _ (by simp) t hfree]
      have := ih (by simp) fun a ha c hc => h a (by simp [ha]) c hc
      rw [show splitOnP (fun c => decide (c = sep)) (joinSep sep (t2 :: ts2)) =
        splitOnChar sep (joinSep sep (t2 :: ts2)) from rfl, this]

theorem mem_joinSep (sep : Char) :
    ∀ (ls : List Str) (c : Char), c ∈ joinSep sep ls → c = sep ∨ ∃ t ∈ ls, c ∈ t := by
  intro ls
  induction ls with
  | nil => intro c hc; simp [joinSep] at hc
  | cons t ts ih =>
    intro c hc
    cases ts with
    | nil =>
      right
      exact ⟨t, by simp, hc⟩
    | cons t2 ts2 =>
      rw [show joinSep sep (t :: t2 :: ts2) = t ++ sep :: joinSep sep (t2 :: ts2) from rfl]
        at hc
      rcases List.mem_append.mp hc with h1 | h2
      · exact Or.inr ⟨t, by simp, h1⟩
      · rcases List.mem_cons.mp h2 with h3 | h4
        · exact Or.inl h3
        · rcases ih c h4 with h5 | ⟨t', ht', hc'⟩
          · exact Or.inl h5
          · exact Or.inr ⟨t', by simp [ht'], hc'⟩

theorem fields_joinSep :
    ∀ (toks : List Str), (∀ t ∈ toks, t ≠ [] ∧ ∀ c ∈ t, goIsSpace c = false) →
    fields (joinSep ' ' toks) = toks := by
  intro toks
  induction toks with
  | nil => intro _; rfl
  | cons t ts ih =>
    intro h
    have ht := h t (by simp)
    cases ts with
    | nil =>
      show (splitOnP goIsSpace t).filter (fun x => x ≠ []) = [t]
      rw [splitOnP_of_forall_not _ t ht.2]
      simp [List.filter, ht.1]
    | cons t2 ts2 =>
      show (splitOnP goIsSpace (t ++ ' ' :: joinSep ' ' (t2 :: ts2))).filter
        (fun x => x ≠ []) = _
      rw [splitOnP_append _ ' ' _ (by decide) t ht.2]
      have := ih fun a ha => h a (by simp [ha])
      unfold fields at this
      rw [List.filter_cons, if_pos (by simp [ht.1]), this]

theorem dropCR_of_no_cr (t : Str) (h : ∀ c ∈ t, c ≠ '\r') : dropCR t = t := by
  unfold dropCR
  split
  · rename_i heq
    exact absurd rfl (h '\r' (List.mem_of_mem_getLast? heq))
  · rfl

theorem goLines_terminated (ls : List Str)
    (h : ∀ t ∈ ls, ∀ c ∈ t, c ≠ '\n' ∧ c ≠ '\r') :
    goLines ((ls.map fun t => t ++ ['\n']).flatten) = ls := by
  have hsplit : ∀ (ms : List Str), (∀ t ∈ ms, ∀ c ∈ t, c ≠ '\n') →
      splitOnChar '\n' ((ms.map fun t => t ++ ['\n']).flatten) = ms ++ [[]] := by
    intro ms
    induction ms with
    | nil => intro _; rfl
    | cons t ts ih =>
      intro hms
      have : ((t :: ts).map fun t => t ++ ['\n']).flatten =
          t ++ '\n' :: (ts.map fun t => t ++ ['\n']).flatten := by
        simp
      rw [this]
      show splitOnP (fun c => c = '\n') _ = _
      rw [splitOnP_append _ '\n' _ (by decide) t
        (fun a ha => by simp [hms t (by simp) a ha])]
      have := ih fun a ha c hc => hms a (by simp [ha]) c hc
      rw [show splitOnP (fun c => decide (c = '\n'))
        ((ts.map fun t => t ++ ['\n']).flatten) =
        splitOnChar '\n' ((ts.map fun t => t ++ ['\n']).flatten) from rfl, this]
      simp

  unfold goLines
  rw [hsplit ls fun t ht c hc => (h t ht c hc).1]
  show List.map dropCR
    (if (ls ++ [[]]).getLast? = some [] then (ls ++ [[]]).dropLast else ls ++ [[]]) = ls
  rw [List.getLast?_concat, if_pos rfl, List.dropLast_concat]
  conv_rhs => rw [← List.map_id ls]
  exact List.map_congr_left fun t ht => dropCR_of_no_cr t fun c hc => (h t ht c hc).2

/- ### Lemmas about well-formed cgroup lines -/

theorem cgSepFree_spec (t : Str) (h : cgSepFree t = true) :
    ∀ c ∈ t, c ≠ ':' ∧ c ≠ '\n' ∧ c ≠ '\r' := by
  intro c hc
  have := List.all_eq_true.mp h c hc
  simp only [Bool.not_eq_eq_eq_not, Bool.not_true, Bool.or_eq_false_iff,
    decide_eq_false_iff_not] at this
  exact ⟨this.1.1, this.1.2, this.2⟩

theorem wfCgRec_spec (r : CgRec) (h : wfCgRec r = true) :
    (goAtoi r.idStr).isSome = true ∧ cgSepFree r.idStr = true ∧ r.ctrls ≠ [] ∧
    (∀ t ∈ r.ctrls, cgSepFree t = true ∧ ∀ c ∈ t, c ≠ ',') ∧
    cgSepFree r.path = true := by
  unfold wfCgRec at h
  simp only [Bool.and_eq_true] at h
  obtain ⟨⟨⟨⟨h1, h2⟩, h3⟩, h4⟩, h5⟩ := h
  refine ⟨h1, h2, ?_, ?_, h5⟩
  · intro hnil
    rw [hnil] at h3
    simp at h3
  · intro t ht
    have := List.all_eq_true.mp h4 t ht
    simp only [Bool.and_eq_true] at this
    refine ⟨this.1, ?_⟩
    intro c hc
    have h6 := List.all_eq_true.mp this.2 c hc
    simp only [Bool.not_eq_eq_eq_not, Bool.not_true, decide_eq_false_iff_not] at h6
    exact h6

theorem renderCgLine_line_free (r : CgRec) (h : wfCgRec r = true) :
    ∀ c ∈ renderCgLine r, c ≠ '\n' ∧ c ≠ '\r' := by
  obtain ⟨_, hid, _, hcs, hpath⟩ := wfCgRec_spec r h
  intro c hc
  unfold renderCgLine at hc
  rcases List.mem_append.mp hc with h1 | h2
  · have := cgSepFree_spec _ hid c h1
    exact ⟨this.2.1, this.2.2⟩
  · rcases List.mem_cons.mp h2 with h3 | h4
    · rw [h3]; exact ⟨by decide, by decide⟩
    · rcases List.mem_append.mp h4 with h5 | h6
      · rcases mem_joinSep ',' r.ctrls c h5 with h7 | ⟨t, ht, hct⟩
        · rw [h7]; exact ⟨by decide, by decide⟩
        · have := cgSepFree_spec t (hcs t ht).1 c hct
          exact ⟨this.2.1, this.2.2⟩
      · rcases List.mem_cons.mp h6 with h7 | h8
        · rw [h7]; exact ⟨by decide, by decide⟩
        · have := cgSepFree_spec _ hpath c h8
          exact ⟨this.2.1, this.2.2⟩

theorem parseCgroupLine_render (r : CgRec) (h : wfCgRec r = true) :
    parseCgroupLine (renderCgLine r) = .ok (cgRecOf r) := by
  obtain ⟨hid, hidf, hcne, hcs, hpf⟩ := wfCgRec_spec r h
  have hfree1 : ∀ a ∈ r.idStr, (decide (a = ':')) = false := by
    intro a ha
    simp [(cgSepFree_spec _ hidf a ha).1]
  have hfree2 : ∀ a ∈ joinSep ',' r.ctrls, (decide (a = ':')) = false := by
    intro a ha
    rcases mem_joinSep ',' r.ctrls a ha with h1 | ⟨t, ht, hat⟩
    · simp [h1]
    · simp [(cgSepFree_spec t (hcs t ht).1 a hat).1]
  have hfree3 : ∀ a ∈ r.path, (decide (a = ':')) = false := by
    intro a ha
    simp [(cgSepFree_spec _ hpf a ha).1]
  have hsplit : splitOnChar ':' (renderCgLine r) =
      [r.idStr, joinSep ',' r.ctrls, r.path] := by
    unfold renderCgLine
    show splitOnP (fun c => c = ':') _ = _
    rw [splitOnP_append _ ':' _ (by decide) r.idStr hfree1]
    rw [splitOnP_append _ ':' _ (by decide) (joinSep ',' r.ctrls) hfree2]
    rw [splitOnP_of_forall_not _ r.path hfree3]
  obtain ⟨i, hi⟩ := Option.isSome_iff_exists.mp hid
  unfold parseCgroupLine
  rw [hsplit]
  simp only [List.headD_cons, hi]
  rw [splitOnChar_joinSep ',' r.ctrls hcne fun t ht c hc => (hcs t ht).2 c hc]
  unfold cgRecOf
  rw [hi]
  rfl

theorem parseCgroupLines_map :
    ∀ (rs : List CgRec), (∀ r ∈ rs, wfCgRec r = true) →
    parseCgroupLines (rs.map renderCgLine) = .ok (rs.map cgRecOf) := by
  intro rs
  induction rs with
  | nil => intro _; rfl
  | cons r rt ih =>
    intro h
    have hr := parseCgroupLine_render r (h r (by simp))
    have ihh := ih fun a ha => h a (by simp [ha])
    simp only [List.map_cons, parseCgroupLines, hr, ihh, ParseOutcome.bind]

/- ### Lemmas about the command-line loop -/

theorem commandLineLoop_of_readToNul (bs seg rest : List Nat)
    (h : readToNul bs = some (seg, rest)) :
    commandLineLoop bs = if seg = [] then [] else seg :: commandLineLoop rest := by
  rw [commandLineLoop]
  split
  · rename_i heq
    rw [heq] at h
    exact absurd h (by simp)
  · rename_i seg' rest' heq
    rw [heq] at h
    injection h with h1
    injection h1 with h2 h3
    rw [h2, h3]

theorem readToNul_encode (r : List Nat) :
    ∀ (a : List Nat), ¬0 ∈ a → readToNul (a ++ 0 :: r) = some (a, r) := by
  intro a
  induction a with
  | nil => intro _; simp [readToNul]
  | cons b bt ih =>
    intro h
    have hb : ¬b = 0 := fun hb => h (by simp [hb])
    have := ih fun hh => h (by simp [hh])
    simp [readToNul, hb, this]

theorem commandLineLoop_encode :
    ∀ (args : List (List Nat)), (∀ a ∈ args, a ≠ [] ∧ ¬0 ∈ a) →
    commandLineLoop (encodeArgs args) = args := by
  intro args
  induction args with
  | nil =>
    intro _
    rw [show encodeArgs [] = [] from rfl, commandLineLoop]
    rfl
  | cons a at' ih =>
    intro h
    have ha := h a (by simp)
    have henc : encodeArgs (a :: at') = a ++ 0 :: encodeArgs at' := by
      simp [encodeArgs]
    rw [henc, commandLineLoop_of_readToNul _ a (encodeArgs at') (readToNul_encode _ a ha.2),
      if_neg ha.1, ih fun x hx => h x (by simp [hx])]

/- ### Lemmas about parenthesis trimming -/

theorem trimParens_wrap (name : Str) (h : ∀ c ∈ name, c ≠ '(' ∧ c ≠ ')') :
    trimParens ('(' :: (name ++ [')'])) = name := by
  have hfree : ∀ c ∈ name, ((c = '(' : Bool) || (c = ')' : Bool)) = false := by
    intro c hc
    simp [(h c hc).1, (h c hc).2]
  simp only [trimParens]
  rw [List.dropWhile_cons_of_pos (by decide)]
  cases name with
  | nil => rfl
  | cons a as =>
    rw [show (a :: as) ++ [')'] = a :: (as ++ [')']) from rfl,
      List.dropWhile_cons_of_neg (by simp [hfree a (by simp)])]
    rw [show a :: (as ++ [')']) = (a :: as) ++ [')'] from rfl]
    simp only [List.reverse_append, List.reverse_singleton, List.singleton_append]
    rw [List.dropWhile_cons_of_pos (by decide)]
    obtain ⟨b, bs, hbs⟩ := List.exists_cons_of_ne_nil
      (show (a :: as).reverse ≠ [] by simp)
    have hb : b ∈ a :: as := by
      rw [← List.mem_reverse, hbs]
      simp
    rw [hbs, List.dropWhile_cons_of_neg (by simp [hfree b hb]), ← hbs,
      List.reverse_reverse]

/- ### Lemmas about the container-id scan -/

theorem containerID_no_docker :
    ∀ (cgs : List Cgroup), (∀ c ∈ cgs, hasPrefix c.Path (("/docker").toList) = false) →
    containerIDOfCgroups cgs = .ok [] := by
  intro cgs
  induction cgs with
  | nil => intro _; rfl
  | cons c rest ih =>
    intro h
    have hc := h c (by simp)
    unfold containerIDOfCgroups
    rw [hc]
    show containerIDOfCgroups rest = _
    exact ih fun c' h' => h c' (by simp [h'])

theorem containerID_docker_head (c : Cgroup) (post : List Cgroup)
    (hpre : hasPrefix c.Path (("/docker").toList) = true)
    (p0 p1 p2 : Str) (prest : List Str)
    (hsplit : splitOnChar '/' c.Path = p0 :: p1 :: p2 :: prest) :
    containerIDOfCgroups (c :: post) = .ok p2 := by
  unfold containerIDOfCgroups
  rw [hpre, hsplit]
  rfl

theorem containerID_skip (rest : List Cgroup) :
    ∀ (pre : List Cgroup), (∀ c' ∈ pre, hasPrefix c'.Path (("/docker").toList) = false) →
    containerIDOfCgroups (pre ++ rest) = containerIDOfCgroups rest := by
  intro pre
  induction pre with
  | nil => intro _; rfl
  | cons c' pt ih =>
    intro hpre
    have hcp := hpre c' (by simp)
    have step : containerIDOfCgroups (c' :: (pt ++ rest)) =
        containerIDOfCgroups (pt ++ rest) := by
      conv_lhs => rw [containerIDOfCgroups]
      rw [hcp]
      rfl
    rw [List.cons_append, step]
    exact ih fun a ha => hpre a (by simp [ha])

/- ### Claim theorems -/

/-- C1: the claim says the boot identity bytes are fed to the hash first, so
that tokens computed under different boot identities differ.  In the code,
`binary.Write(h, binary.LittleEndian, BootID())` passes a Go `string`,
which `encoding/binary.Write` rejects without writing anything (the error
is discarded), so the hash input is exactly the start stack and start time
little-endian bytes and the unique identifier is entirely independent of
the boot identity: for every digest function, every status record, and any
two boot identities, the tokens are identical. -/
theorem uniqueID_ignores_boot_identity (H : List Nat → List Nat) (b1 b2 : Str)
    (ps : ProcessStatus) :
    ps.UniqueID H b1 = ps.UniqueID H b2 ∧
    ∀ (ss st : Nat), uniqueIDHashInput b1 ss st = uint64LE ss ++ uint64LE st :=
  ⟨rfl, fun _ _ => rfl⟩

/-- C2 counterexample: the claim says each cgroup line is split on only the
first two colons, so a path containing `':'` is returned in full.  On the
line `1:cpu:/a:b` the code returns the path `/a`, not `/a:b`. -/
theorem cgroups_colon_path_truncated :
    Cgroups (some (("1:cpu:/a:b").toList)) =
      .ok (some [Cgroup.mk 1 [("cpu").toList] (("/a").toList)]) ∧
    (("/a").toList : Str) ≠ ("/a:b").toList :=
  ⟨by decide, by decide⟩

/-- C2 amended: `Cgroups` splits each line on every `':'` and uses the
first three parts, so a path containing `':'` is truncated at its first
colon; for every readable file whose lines are well formed (id parses, no
component contains a separator), the records come back one per line in
source order with the id, controller list, and path of that line. -/
theorem cgroups_roundtrip (rs : List CgRec) (h : ∀ r ∈ rs, wfCgRec r = true) :
    Cgroups (some (renderCgFile rs)) = .ok (some (rs.map cgRecOf)) := by
  have hchars : ∀ t ∈ rs.map renderCgLine, ∀ c ∈ t, c ≠ '\n' ∧ c ≠ '\r' := by
    intro t ht c hc
    obtain ⟨r, hr, rfl⟩ := List.mem_map.mp ht
    exact renderCgLine_line_free r (h r hr) c hc
  show (parseCgroupLines (goLines (renderCgFile rs))).bind
    (fun cs => ParseOutcome.ok (some cs)) = _
  unfold renderCgFile
  rw [show (rs.map fun r => renderCgLine r ++ ['\n']) =
      ((rs.map renderCgLine).map fun t => t ++ ['\n']) by simp]
  rw [goLines_terminated _ hchars, parseCgroupLines_map rs h]
  rfl

/-- C2 amended, witness: the spec's own two-line example file parses to the
expected two records in order. -/
theorem cgroups_roundtrip_witness :
    Cgroups (some (renderCgFile
      [CgRec.mk (("1").toList) [("cpu").toList, ("cpuacct").toList] (("/").toList),
       CgRec.mk (("2").toList) [("pids").toList] (("/user.slice").toList)])) =
      .ok (some
        [Cgroup.mk 1 [("cpu").toList, ("cpuacct").toList] (("/").toList),
         Cgroup.mk 2 [("pids").toList] (("/user.slice").toList)]) := by
  have := cgroups_roundtrip
    [CgRec.mk (("1").toList) [("cpu").toList, ("cpuacct").toList] (("/").toList),
     CgRec.mk (("2").toList) [("pids").toList] (("/user.slice").toList)] (by decide)
  exact this

/-- C3 counterexample: the claim says `Command` strips exactly one layer of
surrounding parentheses, so the field `((x))` would yield `(x)`.  The code
uses `strings.Trim(field, "()")`, which strips all leading and trailing
parenthesis characters: `((x))` yields `x`, not `(x)`. -/
theorem command_strips_all_parens :
    (ProcessStatus.mk [("4").toList, ("((x))").toList]).Command =
      .ok (("x").toList) ∧
    (("x").toList : Str) ≠ ("(x)").toList :=
  ⟨by decide, by decide⟩

/-- C3 amended: `Command` strips all leading and trailing parenthesis
characters from the second token; in particular, whenever the command field
is `(name)` with `name` containing no parenthesis characters, the exact
name is recovered. -/
theorem command_roundtrip_no_parens (ps : ProcessStatus) (name : Str)
    (hf : ps.statFields.get? 1 = some ('(' :: (name ++ [')'])))
    (h : ∀ c ∈ name, c ≠ '(' ∧ c ≠ ')') :
    ps.Command = .ok name := by
  unfold ProcessStatus.Command
  rw [hf]
  show ParseOutcome.ok (trimParens ('(' :: (name ++ [')']))) = ParseOutcome.ok name
  rw [trimParens_wrap name h]

/-- C3 amended, witness: the field `(bash)` yields `bash`. -/
theorem command_roundtrip_witness :
    (ProcessStatus.mk [("4").toList, ("(bash)").toList]).Command =
      .ok (("bash").toList) :=
  command_roundtrip_no_parens _ (("bash").toList) (by decide) (by decide)

/-- C4: a malformed numeric field — a pid, ppid, starttime or startstack
token that does not parse, or a cgroup line whose first colon-separated
part does not parse under `Atoi` — makes the corresponding accessor end in
`glog.Fatalf` process termination, never in a value. -/
theorem malformed_numeric_fatal (ps : ProcessStatus) :
    (∀ s, ps.statFields.get? 0 = some s → goParseInt 32 s = none →
      ps.PID = .fatal) ∧
    (∀ s, ps.statFields.get? 3 = some s → goParseInt 32 s = none →
      ps.ParentPID = .fatal) ∧
    (∀ s, ps.statFields.get? 21 = some s → goParseUint 64 s = none →
      ps.StartTime = .fatal) ∧
    (∀ s, ps.statFields.get? 27 = some s → goParseUint 64 s = none →
      ps.StartStack = .fatal) ∧
    (∀ (content t : Str) (ts : List Str), goLines content = t :: ts →
      goAtoi ((splitOnChar ':' t).headD []) = none →
      Cgroups (some content) = .fatal) := by
  refine ⟨?_, ?_, ?_, ?_, ?_⟩
  · intro s hs hparse
    unfold ProcessStatus.PID
    rw [hs]
    show outcomeOf (goParseInt 32 s) = ParseOutcome.fatal
    rw [hparse]
    rfl
  · intro s hs hparse
    unfold ProcessStatus.ParentPID
    rw [hs]
    show outcomeOf (goParseInt 32 s) = ParseOutcome.fatal
    rw [hparse]
    rfl
  · intro s hs hparse
    have hs' : ps.statFields.get? (22 - 1) = some s := hs
    unfold ProcessStatus.StartTime
    rw [hs']
    show outcomeOf (goParseUint 64 s) = ParseOutcome.fatal
    rw [hparse]
    rfl
  · intro s hs hparse
    have hs' : ps.statFields.get? (28 - 1) = some s := hs
    unfold ProcessStatus.StartStack
    rw [hs']
    show outcomeOf (goParseUint 64 s) = ParseOutcome.fatal
    rw [hparse]
    rfl
  · intro content t ts hlines hatoi
    have hline : parseCgroupLine t = .fatal := by
      simp only [parseCgroupLine]
      rw [hatoi]
    show (parseCgroupLines (goLines content)).bind
      (fun cs => ParseOutcome.ok (some cs)) = _
    rw [hlines]
    show ((parseCgroupLine t).bind fun c =>
      (parseCgroupLines ts).bind fun cs => ParseOutcome.ok (c :: cs)).bind
      (fun cs => ParseOutcome.ok (some cs)) = _
    rw [hline]
    rfl

/-- C4, witness: concrete malformed tokens at each position end fatally. -/
theorem malformed_numeric_fatal_witness :
    (ProcessStatus.mk [("abc").toList]).PID = .fatal ∧
    (ProcessStatus.mk [("1").toList, ("(x)").toList, ("S").toList,
      ("zz").toList]).ParentPID = .fatal ∧
    (ProcessStatus.mk (List.replicate 21 ['0'] ++ [("1x").toList])).StartTime =
      .fatal ∧
    (ProcessStatus.mk (List.replicate 27 ['0'] ++ [("1x").toList])).StartStack =
      .fatal ∧
    Cgroups (some (("abc:cpu:/\n").toList)) = .fatal := by
  refine ⟨?_, ?_, ?_, ?_, ?_⟩
  · exact (malformed_numeric_fatal _).1 (("abc").toList) (by decide) (by decide)
  · exact (malformed_numeric_fatal _).2.1 (("zz").toList) (by decide) (by decide)
  · exact (malformed_numeric_fatal _).2.2.1 (("1x").toList) (by decide) (by decide)
  · exact (malformed_numeric_fatal _).2.2.2.1 (("1x").toList) (by decide) (by decide)
  · exact (malformed_numeric_fatal (ProcessStatus.mk [])).2.2.2.2
      (("abc:cpu:/\n").toList) (("abc:cpu:/").toList) [] (by decide) (by decide)

/-- C5: when the backing file is absent or unreadable, `Stat` returns an
absent result, `Cgroups` and `CommandLine` return nil, and `UniqueID`
returns the empty string — none of them terminates the process. -/
theorem unreadable_targets_absent (H : List Nat → List Nat) (b : Str) :
    Stat none = none ∧ Cgroups none = .ok none ∧ CommandLine none = none ∧
    UniqueID H b none = .ok [] :=
  ⟨rfl, rfl, rfl, rfl⟩

/-- C6: `ContainerID` scans the cgroup records in order; if no record's
path has the prefix `/docker` it returns the empty string, and when the
first record with that prefix has a path whose `'/'`-split has a third
component, it returns that component. -/
theorem containerID_first_docker (cgs : List Cgroup) :
    ((∀ c ∈ cgs, hasPrefix c.Path (("/docker").toList) = false) →
      containerIDOfCgroups cgs = .ok []) ∧
    (∀ (pre : List Cgroup) (c : Cgroup) (post : List Cgroup),
      cgs = pre ++ c :: post →
      (∀ c' ∈ pre, hasPrefix c'.Path (("/docker").toList) = false) →
      hasPrefix c.Path (("/docker").toList) = true →
      ∀ (p0 p1 p2 : Str) (prest : List Str),
        splitOnChar '/' c.Path = p0 :: p1 :: p2 :: prest →
        containerIDOfCgroups cgs = .ok p2) := by
  constructor
  · exact containerID_no_docker cgs
  · intro pre c post hcgs hpre hc p0 p1 p2 prest hsplit
    rw [hcgs, containerID_skip (c :: post) pre hpre]
    exact containerID_docker_head c post hc p0 p1 p2 prest hsplit

/-- C6, witness: the spec's examples — `/docker/abc123def456/init.scope`
yields `abc123def456`, and a docker-free set yields the empty string. -/
theorem containerID_first_docker_witness :
    containerIDOfCgroups
      [Cgroup.mk 1 [("cpu").toList] (("/docker/abc123def456/init.scope").toList)] =
      .ok (("abc123def456").toList) ∧
    containerIDOfCgroups
      [Cgroup.mk 1 [("cpu").toList] (("/user.slice").toList)] = .ok [] := by
  constructor
  · exact (containerID_first_docker _).2 [] _ [] rfl (by simp) (by decide)
      [] (("docker").toList) (("abc123def456").toList) [("init.scope").toList]
      (by decide)
  · exact (containerID_first_docker _).1 (by decide)

/-- C7 counterexample: the claim says `CommandLine` splits on NUL bytes and
drops a trailing empty segment.  On the bytes `a\x00b` that reading gives
`["a", "b"]`, but the code discards the unterminated final segment and
returns only `["a"]`. -/
theorem commandLine_not_plain_split :
    CommandLine (some [97, 0, 98]) = some [[97]] ∧
    commandLineSpecSplit [97, 0, 98] = [[97], [98]] ∧
    ([[97]] : List (List Nat)) ≠ [[97], [98]] := by
  refine ⟨?_, by decide, by decide⟩
  show some (commandLineLoop [97, 0, 98]) = some [[97]]
  simp [commandLineLoop, readToNul]

/-- C7 amended: `CommandLine` returns the longest prefix of nonempty
NUL-terminated arguments, discarding everything from the first empty
segment or unterminated tail on; in particular, for every readable file
consisting of NUL-terminated nonempty arguments — such as `ls\x00-la\x00` —
it returns exactly those arguments in order, and empty bytes give the empty
sequence. -/
theorem commandLine_roundtrip (args : List (List Nat))
    (h : ∀ a ∈ args, a ≠ [] ∧ ¬0 ∈ a) :
    CommandLine (some (encodeArgs args)) = some args := by
  show some (commandLineLoop (encodeArgs args)) = some args
  rw [commandLineLoop_encode args h]

/-- C7 amended, witness: `ls\x00-la\x00` yields `["ls", "-la"]`. -/
theorem commandLine_roundtrip_witness :
    CommandLine (some [108, 115, 0, 45, 108, 97, 0]) =
      some [[108, 115], [45, 108, 97]] :=
  commandLine_roundtrip [[108, 115], [45, 108, 97]] (by decide)

/-- C8: on a space-joined status line the parsed fields sit at the
documented 1-indexed positions — splitting the joined line recovers the
tokens, PID is field 1 parsed as a signed 32-bit integer, parent PID is
field 4, start time is field 22 parsed as an unsigned 64-bit integer, and
start stack is field 28 parsed as an unsigned 64-bit integer. -/
theorem stat_field_positions (toks : List Str)
    (h : ∀ t ∈ toks, t ≠ [] ∧ ∀ c ∈ t, goIsSpace c = false) :
    Stat (some (joinSep ' ' toks)) = some ⟨toks⟩ ∧
    ∀ (f1 f4 f22 f28 : Str),
      toks.get? 0 = some f1 → toks.get? 3 = some f4 →
      toks.get? 21 = some f22 → toks.get? 27 = some f28 →
      (ProcessStatus.mk toks).PID = outcomeOf (goParseInt 32 f1) ∧
      (ProcessStatus.mk toks).ParentPID = outcomeOf (goParseInt 32 f4) ∧
      (ProcessStatus.mk toks).StartTime = outcomeOf (goParseUint 64 f22) ∧
      (ProcessStatus.mk toks).StartStack = outcomeOf (goParseUint 64 f28) := by
  constructor
  · show some (ProcessStatus.mk (fields (joinSep ' ' toks))) = some (ProcessStatus.mk toks)
    rw [fields_joinSep toks h]
  · intro f1 f4 f22 f28 h1 h4 h22 h28
    refine ⟨?_, ?_, ?_, ?_⟩
    · unfold ProcessStatus.PID
      rw [show (ProcessStatus.mk toks).statFields = toks from rfl, h1]
    · unfold ProcessStatus.ParentPID
      rw [show (ProcessStatus.mk toks).statFields = toks from rfl, h4]
    · have h22' : (ProcessStatus.mk toks).statFields.get? (22 - 1) = some f22 := h22
      unfold ProcessStatus.StartTime
      rw [h22']
    · have h28' : (ProcessStatus.mk toks).statFields.get? (28 - 1) = some f28 := h28
      unfold ProcessStatus.StartStack
      rw [h28']

/-- C8, witness: a concrete 28-field line joined with single spaces parses
back to its tokens, and the four accessors return the values at fields 1,
4, 22 and 28. -/
theorem stat_field_positions_witness :
    Stat (some (joinSep ' ' statTokensW)) = some ⟨statTokensW⟩ ∧
    (ProcessStatus.mk statTokensW).PID = .ok 1234 ∧
    (ProcessStatus.mk statTokensW).ParentPID = .ok 1233 ∧
    (ProcessStatus.mk statTokensW).StartTime = .ok 999 ∧
    (ProcessStatus.mk statTokensW).StartStack = .ok 7777 := by
  obtain ⟨h1, h2⟩ := stat_field_positions statTokensW (by decide)
  obtain ⟨p1, p4, p22, p28⟩ := h2 (("1234").toList) (("1233").toList)
    (("999").toList) (("7777").toList) (by decide) (by decide) (by decide) (by decide)
  exact ⟨h1, by rw [p1]; decide, by rw [p4]; decide,
    by rw [p22]; decide, by rw [p28]; decide⟩

/-- C9: on a readable cgroup file whose first `/docker`-prefixed path is
exactly `/docker` (fewer than three `'/'`-separated components),
`ContainerID` hits an out-of-bounds index — a runtime panic, not the
documented fatal-termination path and not a defined return value. -/
theorem containerID_short_docker_path_panics :
    ContainerID (some (("1:cpu:/docker\n").toList)) = .panic ∧
    (ParseOutcome.panic : ParseOutcome Str) ≠ .fatal :=
  ⟨by decide, by decide⟩

/-- C10: on a readable cgroup file containing the line `1:cpu` (fewer than
three colon-separated parts), `Cgroups` hits an out-of-bounds index — a
runtime panic, not the documented fatal-termination path for malformed
records. -/
theorem cgroups_short_line_panics :
    Cgroups (some (("1:cpu").toList)) = .panic ∧
    (ParseOutcome.panic : ParseOutcome (Option (List Cgroup))) ≠ .fatal :=
  ⟨by decide, by decide⟩

end proc
